import Mathlib

/-!
Shallow embedding of the job-portal API cache module (src/root.py) and proofs
of its specified properties.

The module is a read-mostly CSV-backed lookup service.  Its state is a set of
module-level globals: two key-to-record indexes, two ordered row lists, a
loaded flag, a load timestamp and a version token.  We embed:

* Python str.strip as character-list trimming (pyStrip);
* csv.DictReader rows as association lists with Python-dict semantics
  (alGet / alInsert / alErase);
* the module globals as a CacheState record, threaded explicitly;
* the filesystem (existence flags, mtimes, parsed rows of the two CSV
  files) as an FS record -- CSV parsing itself is an external concern;
* raised exceptions as Except.error, so each HTTP handler returns the new
  global state together with an Except response (ok none models a 404).
-/

/-- Whitespace trimming on a list of characters: drop whitespace from the
front, then from the back -- the character-level content of Python str.strip. -/
def stripChars (l : List Char) : List Char :=
  List.rdropWhile Char.isWhitespace (List.dropWhile Char.isWhitespace l)

/-- Python str.strip: trim surrounding whitespace from a string. -/
def pyStrip (s : String) : String :=
  String.mk (stripChars s.data)

/-- A raw CSV row as produced by csv.DictReader: an association list whose keys
may be none (the restkey for extra columns, skipped by the code) and whose
values may be none (missing trailing fields). -/
abbrev RawRow := List (Option String × Option String)

/-- A normalized record: field name to optional string value, with unique keys
by construction. -/
abbrev Record := List (String × Option String)

/-- Python dict lookup d.get(key): the stored value if the key is present. -/
def alGet {β : Type} : List (String × β) → String → Option β
  | [], _ => none
  | (k, v) :: rest, key => if k = key then some v else alGet rest key

/-- Python dict assignment d[key] = val: overwrite in place if the key is
present (keeping its position), otherwise append at the end. -/
def alInsert {β : Type} : List (String × β) → String → β → List (String × β)
  | [], key, val => [(key, val)]
  | (k, v) :: rest, key, val =>
      if k = key then (k, val) :: rest else (k, v) :: alInsert rest key val

/-- Python dict d.pop(key, None): remove the binding of key if present. -/
def alErase {β : Type} : List (String × β) → String → List (String × β)
  | [], _ => []
  | (k, v) :: rest, key => if k = key then rest else (k, v) :: alErase rest key

/-- d.get(key) on a Record, as the Python code observes it: a missing key and a
stored None are both returned as None. -/
def pyGet (d : Record) (k : String) : Option String :=
  match alGet d k with
  | some (some s) => some s
  | _ => none

/-- Python truthiness of d.get(key): None and the empty string are falsy. -/
def truthy : Option String → Bool
  | none => false
  | some s => decide (s ≠ "")

/-- Normalization of one field value (body of the else branch of
_normalize_row): None stays None, otherwise strip, and an empty-after-strip
value becomes None. -/
def normValue : Option String → Option String
  | none => none
  | some s =>
      let vv := pyStrip s
      if vv = "" then none else some vv

/-- One iteration of the loop in _normalize_row: skip a None key, otherwise
store the normalized value under the stripped key. -/
def normStep (out : Record) (kv : Option String × Option String) : Record :=
  match kv.1 with
  | none => out
  | some k => alInsert out (pyStrip k) (normValue kv.2)

/-- Embedding of _normalize_row: strip keys, strip values, map empty-after-trim
values to None, skipping the None restkey. -/
def _normalize_row (row : RawRow) : Record :=
  row.foldl normStep []

/-- A normalized company row after the two column drops
d.pop("quality", None); d.pop("updated_at", None). -/
def stripCompanyRow (row : RawRow) : Record :=
  alErase (alErase (_normalize_row row) "quality") "updated_at"

/-- Path constant COMPANY_CSV (BASE_DIR resolution is external). -/
def COMPANY_CSV : String := "source/company.csv"

/-- Path constant RECRUIT_CSV. -/
def RECRUIT_CSV : String := "source/recruit.csv"

/-- The filesystem as the module observes it: existence and mtime of the two
CSV files, and their parsed rows (csv.DictReader is an external concern). -/
structure FS where
  companyExists : Bool
  recruitExists : Bool
  companyMtime : Nat
  recruitMtime : Nat
  companyRows : List RawRow
  recruitRows : List RawRow

/-- Embedding of _file_version: the two integer-second mtimes joined by a
dash, each component 0 when the file is absent. -/
def _file_version (fs : FS) : String :=
  toString (if fs.companyExists then fs.companyMtime else 0) ++ "-" ++
    toString (if fs.recruitExists then fs.recruitMtime else 0)

/-- The module-level globals of src/root.py. -/
structure CacheState where
  company_cache : List (String × Record)
  recruit_cache : List (String × Record)
  all_companies : List Record
  all_recruits : List Record
  cache_loaded : Bool
  cache_loaded_at : Nat
  cache_version : String
deriving DecidableEq

/-- The globals at process start. -/
def initialState : CacheState :=
  { company_cache := [], recruit_cache := [], all_companies := [],
    all_recruits := [], cache_loaded := false, cache_loaded_at := 0,
    cache_version := "" }

/-- One iteration of the company ingest loop: normalize, drop the two excluded
columns, always append to the ordered list, and index the row only when
corporate_number is truthy. -/
def companyStep (acc : List (String × Record) × List Record) (row : RawRow) :
    List (String × Record) × List Record :=
  let d := stripCompanyRow row
  (match pyGet d "corporate_number" with
   | some c => if c = "" then acc.1 else alInsert acc.1 c d
   | none => acc.1,
   acc.2 ++ [d])

/-- One iteration of the recruit ingest loop: normalize, and skip the row
entirely (neither list nor index) unless media_internal_id is truthy. -/
def recruitStep (acc : List (String × Record) × List Record) (row : RawRow) :
    List (String × Record) × List Record :=
  let d := _normalize_row row
  match pyGet d "media_internal_id" with
  | some m => if m = "" then acc else (alInsert acc.1 m d, acc.2 ++ [d])
  | none => acc

/-- The full re-ingest (lines 70-110 of src/root.py): both files parsed into
fresh local structures, then published wholesale together with the loaded
flag, load timestamp and version token. -/
def rebuildState (fs : FS) (now : Nat) : CacheState :=
  let c := fs.companyRows.foldl companyStep ([], [])
  let r := fs.recruitRows.foldl recruitStep ([], [])
  { company_cache := c.1, recruit_cache := r.1,
    all_companies := c.2, all_recruits := r.2,
    cache_loaded := true, cache_loaded_at := now,
    cache_version := _file_version fs }

/-- Embedding of load_cache_from_csv: existence checks first (raising
FileNotFoundError becomes Except.error, before any state change), then the
version short-circuit, then the rebuild. -/
def load_cache_from_csv (fs : FS) (force : Bool) (st : CacheState) (now : Nat) :
    Except String CacheState :=
  if fs.companyExists = false then Except.error ("Missing " ++ COMPANY_CSV)
  else if fs.recruitExists = false then Except.error ("Missing " ++ RECRUIT_CSV)
  else if st.cache_loaded && !force && (_file_version fs == st.cache_version)
    then Except.ok st
  else Except.ok (rebuildState fs now)

/-- Embedding of ensure_cache_loaded: a non-forced load only when the loaded
flag is false. -/
def ensure_cache_loaded (fs : FS) (now : Nat) (st : CacheState) :
    Except String CacheState :=
  if st.cache_loaded then Except.ok st else load_cache_from_csv fs false st now

/-- Handler GET /company/{corporate_number}: ensure loaded, then exact-key
lookup; ok none models the 404 branch, error models a propagated exception
(globals unchanged in that case). -/
def get_company (fs : FS) (now : Nat) (st : CacheState)
    (corporate_number : String) : CacheState × Except String (Option Record) :=
  match ensure_cache_loaded fs now st with
  | Except.error e => (st, Except.error e)
  | Except.ok st2 => (st2, Except.ok (alGet st2.company_cache corporate_number))

/-- The company join of get_recruitment:
comp = company_cache.get(corp) if corp else None. -/
def joinCompany (st : CacheState) (recd : Record) : Option Record :=
  match pyGet recd "corporate_number" with
  | some c => if c = "" then none else alGet st.company_cache c
  | none => none

/-- Handler GET /recruitment/{media_internal_id}: ensure loaded, look up the
recruit record, then join the referenced company when corporate_number is
truthy; ok none models the 404 branch. -/
def get_recruitment (fs : FS) (now : Nat) (st : CacheState)
    (media_internal_id : String) :
    CacheState × Except String (Option (Record × Option Record)) :=
  match ensure_cache_loaded fs now st with
  | Except.error e => (st, Except.error e)
  | Except.ok st2 =>
      match alGet st2.recruit_cache media_internal_id with
      | none => (st2, Except.ok none)
      | some recd => (st2, Except.ok (some (recd, joinCompany st2 recd)))

/-- Handler GET /recruitment: ensure loaded, return the full ordered recruit
list. -/
def get_all_recruitments (fs : FS) (now : Nat) (st : CacheState) :
    CacheState × Except String (List Record) :=
  match ensure_cache_loaded fs now st with
  | Except.error e => (st, Except.error e)
  | Except.ok st2 => (st2, Except.ok st2.all_recruits)

/-- Handler GET /: ensure loaded, return the full ordered company list. -/
def root (fs : FS) (now : Nat) (st : CacheState) :
    CacheState × Except String (List Record) :=
  match ensure_cache_loaded fs now st with
  | Except.error e => (st, Except.error e)
  | Except.ok st2 => (st2, Except.ok st2.all_companies)

/-- Response shape of GET /debug/check-data. -/
structure CheckData where
  company_count : Nat
  recruit_count : Nat
  cache_loaded : Bool
  cache_version : String
  cache_loaded_at : Nat
  source : String
deriving DecidableEq

/-- Handler GET /debug/check-data: ensure loaded, report index sizes and cache
metadata. -/
def check_data (fs : FS) (now : Nat) (st : CacheState) :
    CacheState × Except String CheckData :=
  match ensure_cache_loaded fs now st with
  | Except.error e => (st, Except.error e)
  | Except.ok st2 =>
      (st2, Except.ok
        { company_count := st2.company_cache.length,
          recruit_count := st2.recruit_cache.length,
          cache_loaded := st2.cache_loaded,
          cache_version := st2.cache_version,
          cache_loaded_at := st2.cache_loaded_at,
          source := "csv" })

/-- Response shape of POST /admin/reload-cache. -/
structure ReloadResp where
  status : String
  companies_loaded : Nat
  recruitments_loaded : Nat
  cache_version : String
deriving DecidableEq

/-- Handler POST /admin/reload-cache: forced load; on failure the exception is
caught and returned as a 500 with the globals untouched. -/
def reload_cache (fs : FS) (now : Nat) (st : CacheState) :
    CacheState × Except String ReloadResp :=
  match load_cache_from_csv fs true st now with
  | Except.error e => (st, Except.error e)
  | Except.ok st2 =>
      (st2, Except.ok
        { status := "success",
          companies_loaded := st2.company_cache.length,
          recruitments_loaded := st2.recruit_cache.length,
          cache_version := st2.cache_version })

/-! ### Association-list lemmas -/

theorem alGet_alInsert_self {β : Type} (l : List (String × β)) (k : String)
    (v : β) : alGet (alInsert l k v) k = some v := by
  induction l with
  | nil => simp [alInsert, alGet]
  | cons hd tl ih =>
      obtain ⟨k1, v1⟩ := hd
      by_cases h : k1 = k
      · subst h
        simp [alInsert, alGet]
      · simp [alInsert, alGet, h, ih]

theorem alGet_alInsert_ne {β : Type} (l : List (String × β)) {k k2 : String}
    (v : β) (h : k2 ≠ k) : alGet (alInsert l k v) k2 = alGet l k2 := by
  induction l with
  | nil => simp [alInsert, alGet, Ne.symm h]
  | cons hd tl ih =>
      obtain ⟨k1, v1⟩ := hd
      by_cases h1 : k1 = k
      · subst h1
        simp [alInsert, alGet, Ne.symm h]
      · simp only [alInsert, if_neg h1, alGet]
        by_cases h2 : k1 = k2
        · simp [h2]
        · simp [h2, ih]

theorem alGet_mem {β : Type} : ∀ (l : List (String × β)) (k : String) (v : β),
    alGet l k = some v → (k, v) ∈ l := by
  intro l
  induction l with
  | nil => intro k v h; simp [alGet] at h
  | cons hd tl ih =>
      intro k v h
      obtain ⟨k1, v1⟩ := hd
      by_cases h1 : k1 = k
      · subst h1
        simp [alGet] at h
        simp [h]
      · simp [alGet, h1] at h
        exact List.mem_cons_of_mem _ (ih _ _ h)

theorem alInsert_forall {β : Type} (P : String × β → Prop) :
    ∀ (l : List (String × β)) (k : String) (v : β),
      (∀ kv ∈ l, P kv) → P (k, v) → ∀ kv ∈ alInsert l k v, P kv := by
  intro l
  induction l with
  | nil =>
      intro k v _ hkv kv hm
      simp [alInsert] at hm
      subst hm
      exact hkv
  | cons hd tl ih =>
      intro k v hl hkv kv hm
      obtain ⟨k1, v1⟩ := hd
      by_cases h1 : k1 = k
      · subst h1
        simp [alInsert] at hm
        rcases hm with hm | hm
        · subst hm
          exact hkv
        · exact hl kv (List.mem_cons_of_mem _ hm)
      · simp only [alInsert, if_neg h1] at hm
        rcases List.mem_cons.1 hm with hm | hm
        · subst hm
          exact hl _ (List.mem_cons_self _ _)
        · exact ih k v (fun x hx => hl x (List.mem_cons_of_mem _ hx)) hkv kv hm

theorem alErase_subset {β : Type} :
    ∀ (l : List (String × β)) (k : String) (kv : String × β),
      kv ∈ alErase l k → kv ∈ l := by
  intro l
  induction l with
  | nil => intro k kv h; simp [alErase] at h
  | cons hd tl ih =>
      intro k kv h
      obtain ⟨k1, v1⟩ := hd
      by_cases h1 : k1 = k
      · simp only [alErase, if_pos h1] at h
        exact List.mem_cons_of_mem _ h
      · simp only [alErase, if_neg h1] at h
        rcases List.mem_cons.1 h with h | h
        · simp [h]
        · exact List.mem_cons_of_mem _ (ih _ _ h)

theorem alInsert_of_alGet_none {β : Type} :
    ∀ (l : List (String × β)) (k : String) (v : β),
      alGet l k = none → alInsert l k v = l ++ [(k, v)] := by
  intro l
  induction l with
  | nil => intro k v _; simp [alInsert]
  | cons hd tl ih =>
      intro k v h
      obtain ⟨k1, v1⟩ := hd
      by_cases h1 : k1 = k
      · subst h1
        simp [alGet] at h
      · simp [alGet, h1] at h
        simp [alInsert, h1, ih _ _ h]

theorem alGet_append_of_none {β : Type} :
    ∀ (l1 l2 : List (String × β)) (k : String), alGet l1 k = none →
      alGet (l1 ++ l2) k = alGet l2 k := by
  intro l1
  induction l1 with
  | nil => intro l2 k _; simp
  | cons hd tl ih =>
      intro l2 k h
      obtain ⟨k1, v1⟩ := hd
      by_cases h1 : k1 = k
      · subst h1
        simp [alGet] at h
      · simp [alGet, h1] at h ⊢
        exact ih _ _ h

/-- The key list of an association list. -/
def alKeys {β : Type} (l : List (String × β)) : List String := l.map Prod.fst

theorem alGet_eq_none_iff {β : Type} :
    ∀ (l : List (String × β)) (k : String), alGet l k = none ↔ k ∉ alKeys l := by
  intro l
  induction l with
  | nil => intro k; simp [alGet, alKeys]
  | cons hd tl ih =>
      intro k
      obtain ⟨k1, v1⟩ := hd
      by_cases h1 : k1 = k
      · subst h1
        simp [alGet, alKeys]
      · simp [alGet, alKeys, h1, ih, Ne.symm h1]

theorem alKeys_alInsert_of_some {β : Type} :
    ∀ (l : List (String × β)) (k : String) (v w : β), alGet l k = some w →
      alKeys (alInsert l k v) = alKeys l := by
  intro l
  induction l with
  | nil => intro k v w h; simp [alGet] at h
  | cons hd tl ih =>
      intro k v w h
      obtain ⟨k1, v1⟩ := hd
      by_cases h1 : k1 = k
      · subst h1
        simp [alInsert, alKeys]
      · simp [alGet, h1] at h
        simp [alInsert, h1, alKeys] at ih ⊢
        exact ih _ _ _ h

theorem alKeys_nodup_alInsert {β : Type} (l : List (String × β)) (k : String)
    (v : β) (h : (alKeys l).Nodup) : (alKeys (alInsert l k v)).Nodup := by
  cases halg : alGet l k with
  | some w => rw [alKeys_alInsert_of_some l k v w halg]; exact h
  | none =>
      rw [alInsert_of_alGet_none l k v halg]
      have hk : k ∉ alKeys l := (alGet_eq_none_iff l k).1 halg
      have : alKeys (l ++ [(k, v)]) = alKeys l ++ [k] := by simp [alKeys]
      rw [this]
      refine List.Nodup.append h (List.nodup_singleton k) ?_
      intro a ha hb
      rw [List.mem_singleton] at hb
      subst hb
      exact hk ha

/-! ### Idempotence of whitespace stripping -/

theorem not_of_dropWhile_eq_cons {α : Type} (p : α → Bool) :
    ∀ (l res : List α) (c : α), List.dropWhile p l = c :: res → p c = false := by
  intro l
  induction l with
  | nil => intro res c h; simp [List.dropWhile] at h
  | cons a tl ih =>
      intro res c h
      rw [List.dropWhile_cons] at h
      by_cases ha : p a
      · rw [if_pos ha] at h
        exact ih _ _ h
      · rw [if_neg ha] at h
        injection h with h1 _
        subst h1
        simpa using ha

theorem dropWhile_rdropWhile_dropWhile (p : Char → Bool) (l : List Char) :
    List.dropWhile p (List.rdropWhile p (List.dropWhile p l))
      = List.rdropWhile p (List.dropWhile p l) := by
  cases hr : List.rdropWhile p (List.dropWhile p l) with
  | nil => simp
  | cons c cs =>
      obtain ⟨t, ht⟩ := List.rdropWhile_prefix p (List.dropWhile p l)
      rw [hr] at ht
      have hc : p c = false := by
        apply not_of_dropWhile_eq_cons p l (cs ++ t) c
        rw [← ht]
        simp
      rw [List.dropWhile_cons, hc]
      simp

theorem pyStrip_idem (s : String) : pyStrip (pyStrip s) = pyStrip s := by
  show String.mk (stripChars (stripChars s.data)) = String.mk (stripChars s.data)
  have h : stripChars (stripChars s.data) = stripChars s.data := by
    unfold stripChars
    rw [dropWhile_rdropWhile_dropWhile, List.rdropWhile_idempotent]
  exact congrArg String.mk h

/-! ### Invariants of normalization -/

theorem normValue_none_of_empty (s : String) (h : pyStrip s = "") :
    normValue (some s) = none := by
  simp [normValue, h]

theorem normValue_eq_some (v : Option String) (s : String)
    (h : normValue v = some s) : s ≠ "" ∧ pyStrip s = s := by
  cases v with
  | none => simp [normValue] at h
  | some s0 =>
      by_cases h0 : pyStrip s0 = ""
      · simp [normValue, h0] at h
      · simp [normValue, h0] at h
        subst h
        exact ⟨h0, pyStrip_idem s0⟩

/-- The shape every field of a normalized record has: a trimmed key, and a
value that is either None or a trimmed non-empty string. -/
def normKV (kv : String × Option String) : Prop :=
  pyStrip kv.1 = kv.1 ∧ ∀ s, kv.2 = some s → s ≠ "" ∧ pyStrip s = s

theorem foldl_normStep_forall :
    ∀ (row : RawRow) (acc : Record), (∀ kv ∈ acc, normKV kv) →
      ∀ kv ∈ row.foldl normStep acc, normKV kv := by
  intro row
  induction row with
  | nil => intro acc h; simpa using h
  | cons hd tl ih =>
      intro acc h
      rw [List.foldl_cons]
      apply ih
      cases hk : hd.1 with
      | none => simpa [normStep, hk] using h
      | some k =>
          simp only [normStep, hk]
          apply alInsert_forall normKV acc (pyStrip k) (normValue hd.2) h
          constructor
          · exact pyStrip_idem k
          · intro s hs
            exact normValue_eq_some hd.2 s hs

theorem normalize_row_forall (row : RawRow) :
    ∀ kv ∈ _normalize_row row, normKV kv :=
  foldl_normStep_forall row [] (by simp)

theorem stripCompanyRow_forall (row : RawRow) :
    ∀ kv ∈ stripCompanyRow row, normKV kv := by
  intro kv h
  exact normalize_row_forall row kv
    (alErase_subset _ _ _ (alErase_subset _ _ _ h))

theorem pyGet_ne_empty_of_forall (d : Record) (h : ∀ kv ∈ d, normKV kv)
    (k : String) : pyGet d k ≠ some "" := by
  intro hc
  cases halg : alGet d k with
  | none => simp [pyGet, halg] at hc
  | some v =>
      cases v with
      | none => simp [pyGet, halg] at hc
      | some s =>
          simp [pyGet, halg] at hc
          have hmem := alGet_mem d k (some s) halg
          have h2 := (h _ hmem).2 s rfl
          exact h2.1 hc

theorem normalize_row_pyGet_ne_empty (row : RawRow) (k : String) :
    pyGet (_normalize_row row) k ≠ some "" :=
  pyGet_ne_empty_of_forall _ (normalize_row_forall row) k

theorem stripCompanyRow_pyGet_ne_empty (row : RawRow) (k : String) :
    pyGet (stripCompanyRow row) k ≠ some "" :=
  pyGet_ne_empty_of_forall _ (stripCompanyRow_forall row) k

/-! ### Ingest fold lemmas -/

theorem companyStep_snd (acc : List (String × Record) × List Record)
    (row : RawRow) :
    (companyStep acc row).2 = acc.2 ++ [stripCompanyRow row] := rfl

theorem companyFold_list :
    ∀ (rows : List RawRow) (acc : List (String × Record) × List Record),
      (rows.foldl companyStep acc).2 = acc.2 ++ rows.map stripCompanyRow := by
  intro rows
  induction rows with
  | nil => intro acc; simp
  | cons r rest ih =>
      intro acc
      rw [List.foldl_cons, ih, companyStep_snd, List.map_cons, List.append_assoc]
      rfl

theorem recruitFold_list :
    ∀ (rows : List RawRow) (acc : List (String × Record) × List Record),
      (rows.foldl recruitStep acc).2 = acc.2 ++
        (rows.map _normalize_row).filter
          (fun d => truthy (pyGet d "media_internal_id")) := by
  intro rows
  induction rows with
  | nil => intro acc; simp
  | cons r rest ih =>
      intro acc
      rw [List.foldl_cons, ih]
      cases h : pyGet (_normalize_row r) "media_internal_id" with
      | none =>
          simp [recruitStep, h, List.filter_cons, truthy]
      | some m =>
          by_cases hm : m = ""
          · subst hm
            exact absurd h (normalize_row_pyGet_ne_empty r _)
          · simp [recruitStep, h, hm, List.filter_cons, truthy]

theorem companyFold_index_key :
    ∀ (rows : List RawRow) (acc : List (String × Record) × List Record),
      (∀ k recd, alGet acc.1 k = some recd →
        pyGet recd "corporate_number" = some k ∧ k ≠ "") →
      ∀ k recd, alGet (rows.foldl companyStep acc).1 k = some recd →
        pyGet recd "corporate_number" = some k ∧ k ≠ "" := by
  intro rows
  induction rows with
  | nil => intro acc h; simpa using h
  | cons r rest ih =>
      intro acc h
      rw [List.foldl_cons]
      apply ih
      intro k recd hget
      cases hc : pyGet (stripCompanyRow r) "corporate_number" with
      | none =>
          rw [show (companyStep acc r).1 = acc.1 by simp [companyStep, hc]] at hget
          exact h k recd hget
      | some c =>
          by_cases hce : c = ""
          · subst hce
            exact absurd hc (stripCompanyRow_pyGet_ne_empty r _)
          · rw [show (companyStep acc r).1
                = alInsert acc.1 c (stripCompanyRow r) by
                simp [companyStep, hc, hce]] at hget
            by_cases hkc : k = c
            · subst hkc
              rw [alGet_alInsert_self] at hget
              injection hget with h2
              subst h2
              exact ⟨hc, hce⟩
            · rw [alGet_alInsert_ne _ _ hkc] at hget
              exact h k recd hget

theorem companyFold_index_mem :
    ∀ (rows : List RawRow) (acc : List (String × Record) × List Record)
      (k : String) (recd : Record),
      alGet (rows.foldl companyStep acc).1 k = some recd →
      alGet acc.1 k = some recd ∨ ∃ row ∈ rows, recd = stripCompanyRow row := by
  intro rows
  induction rows with
  | nil => intro acc k recd h; left; simpa using h
  | cons r rest ih =>
      intro acc k recd h
      rw [List.foldl_cons] at h
      rcases ih _ k recd h with h1 | h1
      · cases hc : pyGet (stripCompanyRow r) "corporate_number" with
        | none =>
            rw [show (companyStep acc r).1 = acc.1 by simp [companyStep, hc]] at h1
            exact Or.inl h1
        | some c =>
            by_cases hce : c = ""
            · rw [show (companyStep acc r).1 = acc.1 by
                  simp [companyStep, hc, hce]] at h1
              exact Or.inl h1
            · rw [show (companyStep acc r).1
                  = alInsert acc.1 c (stripCompanyRow r) by
                  simp [companyStep, hc, hce]] at h1
              by_cases hkc : k = c
              · subst hkc
                rw [alGet_alInsert_self] at h1
                injection h1 with h2
                exact Or.inr ⟨r, List.mem_cons_self _ _, h2.symm⟩
              · rw [alGet_alInsert_ne _ _ hkc] at h1
                exact Or.inl h1
      · obtain ⟨row, hrow, heq⟩ := h1
        exact Or.inr ⟨row, List.mem_cons_of_mem _ hrow, heq⟩

theorem recruitFold_index_key :
    ∀ (rows : List RawRow) (acc : List (String × Record) × List Record),
      (∀ k recd, alGet acc.1 k = some recd →
        pyGet recd "media_internal_id" = some k ∧ k ≠ "") →
      ∀ k recd, alGet (rows.foldl recruitStep acc).1 k = some recd →
        pyGet recd "media_internal_id" = some k ∧ k ≠ "" := by
  intro rows
  induction rows with
  | nil => intro acc h; simpa using h
  | cons r rest ih =>
      intro acc h
      rw [List.foldl_cons]
      apply ih
      intro k recd hget
      cases hc : pyGet (_normalize_row r) "media_internal_id" with
      | none =>
          rw [show recruitStep acc r = acc by simp [recruitStep, hc]] at hget
          exact h k recd hget
      | some m =>
          by_cases hme : m = ""
          · subst hme
            exact absurd hc (normalize_row_pyGet_ne_empty r _)
          · rw [show (recruitStep acc r).1
                = alInsert acc.1 m (_normalize_row r) by
                simp [recruitStep, hc, hme]] at hget
            by_cases hkm : k = m
            · subst hkm
              rw [alGet_alInsert_self] at hget
              injection hget with h2
              subst h2
              exact ⟨hc, hme⟩
            · rw [alGet_alInsert_ne _ _ hkm] at hget
              exact h k recd hget

theorem recruitFold_index_mem :
    ∀ (rows : List RawRow) (acc : List (String × Record) × List Record)
      (k : String) (recd : Record),
      alGet (rows.foldl recruitStep acc).1 k = some recd →
      alGet acc.1 k = some recd ∨ ∃ row ∈ rows, recd = _normalize_row row := by
  intro rows
  induction rows with
  | nil => intro acc k recd h; left; simpa using h
  | cons r rest ih =>
      intro acc k recd h
      rw [List.foldl_cons] at h
      rcases ih _ k recd h with h1 | h1
      · cases hc : pyGet (_normalize_row r) "media_internal_id" with
        | none =>
            rw [show recruitStep acc r = acc by simp [recruitStep, hc]] at h1
            exact Or.inl h1
        | some m =>
            by_cases hme : m = ""
            · rw [show recruitStep acc r = acc by
                  simp [recruitStep, hc, hme]] at h1
              exact Or.inl h1
            · rw [show (recruitStep acc r).1
                  = alInsert acc.1 m (_normalize_row r) by
                  simp [recruitStep, hc, hme]] at h1
              by_cases hkm : k = m
              · subst hkm
                rw [alGet_alInsert_self] at h1
                injection h1 with h2
                exact Or.inr ⟨r, List.mem_cons_self _ _, h2.symm⟩
              · rw [alGet_alInsert_ne _ _ hkm] at h1
                exact Or.inl h1
      · obtain ⟨row, hrow, heq⟩ := h1
        exact Or.inr ⟨row, List.mem_cons_of_mem _ hrow, heq⟩

theorem alGet_isSome_alInsert {β : Type} (l : List (String × β)) (k k2 : String)
    (v : β) (h : (alGet l k2).isSome = true) :
    (alGet (alInsert l k v) k2).isSome = true := by
  by_cases hk : k2 = k
  · subst hk
    rw [alGet_alInsert_self]
    rfl
  · rw [alGet_alInsert_ne _ _ hk]
    exact h

theorem recruitFold_isSome_mono :
    ∀ (rows : List RawRow) (acc : List (String × Record) × List Record)
      (k : String), (alGet acc.1 k).isSome = true →
      (alGet (rows.foldl recruitStep acc).1 k).isSome = true := by
  intro rows
  induction rows with
  | nil => intro acc k h; simpa using h
  | cons r rest ih =>
      intro acc k h
      rw [List.foldl_cons]
      apply ih
      cases hc : pyGet (_normalize_row r) "media_internal_id" with
      | none =>
          rw [show recruitStep acc r = acc by simp [recruitStep, hc]]
          exact h
      | some m =>
          by_cases hme : m = ""
          · rw [show recruitStep acc r = acc by simp [recruitStep, hc, hme]]
            exact h
          · rw [show (recruitStep acc r).1
                = alInsert acc.1 m (_normalize_row r) by
                simp [recruitStep, hc, hme]]
            exact alGet_isSome_alInsert _ _ _ _ h

theorem recruitFold_isSome_of_mem :
    ∀ (rows : List RawRow) (acc : List (String × Record) × List Record)
      (r : RawRow) (k : String), r ∈ rows →
      pyGet (_normalize_row r) "media_internal_id" = some k → k ≠ "" →
      (alGet (rows.foldl recruitStep acc).1 k).isSome = true := by
  intro rows
  induction rows with
  | nil => intro acc r k hmem; simp at hmem
  | cons r0 rest ih =>
      intro acc r k hmem hkey hne
      rw [List.foldl_cons]
      rcases List.mem_cons.1 hmem with he | hm
      · subst he
        apply recruitFold_isSome_mono
        rw [show (recruitStep acc r).1
            = alInsert acc.1 k (_normalize_row r) by
            simp [recruitStep, hkey, hne]]
        rw [alGet_alInsert_self]
        rfl
      · exact ih _ r k hm hkey hne

theorem companyFold_get_preserved :
    ∀ (ys : List RawRow) (acc : List (String × Record) × List Record)
      (k : String) (d : Record),
      alGet acc.1 k = some d →
      (∀ r2 ∈ ys, pyGet (stripCompanyRow r2) "corporate_number" ≠ some k) →
      alGet (ys.foldl companyStep acc).1 k = some d := by
  intro ys
  induction ys with
  | nil => intro acc k d h _; simpa using h
  | cons r rest ih =>
      intro acc k d h hys
      rw [List.foldl_cons]
      apply ih
      · cases hc : pyGet (stripCompanyRow r) "corporate_number" with
        | none =>
            rw [show (companyStep acc r).1 = acc.1 by simp [companyStep, hc]]
            exact h
        | some c =>
            by_cases hce : c = ""
            · rw [show (companyStep acc r).1 = acc.1 by
                  simp [companyStep, hc, hce]]
              exact h
            · have hkc : k ≠ c := by
                intro he
                apply hys r (List.mem_cons_self _ _)
                rw [← he] at hc
                exact hc
              rw [show (companyStep acc r).1
                  = alInsert acc.1 c (stripCompanyRow r) by
                  simp [companyStep, hc, hce]]
              rw [alGet_alInsert_ne _ _ hkc]
              exact h
      · intro r2 h2
        exact hys r2 (List.mem_cons_of_mem _ h2)

theorem recruitFold_get_preserved :
    ∀ (ys : List RawRow) (acc : List (String × Record) × List Record)
      (k : String) (d : Record),
      alGet acc.1 k = some d →
      (∀ r2 ∈ ys, pyGet (_normalize_row r2) "media_internal_id" ≠ some k) →
      alGet (ys.foldl recruitStep acc).1 k = some d := by
  intro ys
  induction ys with
  | nil => intro acc k d h _; simpa using h
  | cons r rest ih =>
      intro acc k d h hys
      rw [List.foldl_cons]
      apply ih
      · cases hc : pyGet (_normalize_row r) "media_internal_id" with
        | none =>
            rw [show recruitStep acc r = acc by simp [recruitStep, hc]]
            exact h
        | some m =>
            by_cases hme : m = ""
            · rw [show recruitStep acc r = acc by simp [recruitStep, hc, hme]]
              exact h
            · have hkm : k ≠ m := by
                intro he
                apply hys r (List.mem_cons_self _ _)
                rw [← he] at hc
                exact hc
              rw [show (recruitStep acc r).1
                  = alInsert acc.1 m (_normalize_row r) by
                  simp [recruitStep, hc, hme]]
              rw [alGet_alInsert_ne _ _ hkm]
              exact h
      · intro r2 h2
        exact hys r2 (List.mem_cons_of_mem _ h2)

theorem company_cache_lastdup (fs : FS) (now : Nat) (xs ys : List RawRow)
    (r : RawRow) (k : String) (hrows : fs.companyRows = xs ++ r :: ys)
    (hkey : pyGet (stripCompanyRow r) "corporate_number" = some k) (hne : k ≠ "")
    (hlast : ∀ r2 ∈ ys, pyGet (stripCompanyRow r2) "corporate_number" ≠ some k) :
    alGet (rebuildState fs now).company_cache k = some (stripCompanyRow r) := by
  have hcc : (rebuildState fs now).company_cache
      = (fs.companyRows.foldl companyStep ([], [])).1 := rfl
  rw [hcc, hrows, List.foldl_append, List.foldl_cons]
  apply companyFold_get_preserved ys _ k (stripCompanyRow r) _ hlast
  rw [show (companyStep (xs.foldl companyStep ([], [])) r).1
      = alInsert (xs.foldl companyStep ([], [])).1 k (stripCompanyRow r) by
      simp [companyStep, hkey, hne]]
  exact alGet_alInsert_self _ _ _

theorem recruit_cache_lastdup (fs : FS) (now : Nat) (xs ys : List RawRow)
    (r : RawRow) (k : String) (hrows : fs.recruitRows = xs ++ r :: ys)
    (hkey : pyGet (_normalize_row r) "media_internal_id" = some k) (hne : k ≠ "")
    (hlast : ∀ r2 ∈ ys, pyGet (_normalize_row r2) "media_internal_id" ≠ some k) :
    alGet (rebuildState fs now).recruit_cache k = some (_normalize_row r) := by
  have hcc : (rebuildState fs now).recruit_cache
      = (fs.recruitRows.foldl recruitStep ([], [])).1 := rfl
  rw [hcc, hrows, List.foldl_append, List.foldl_cons]
  apply recruitFold_get_preserved ys _ k (_normalize_row r) _ hlast
  rw [show (recruitStep (xs.foldl recruitStep ([], [])) r).1
      = alInsert (xs.foldl recruitStep ([], [])).1 k (_normalize_row r) by
      simp [recruitStep, hkey, hne]]
  exact alGet_alInsert_self _ _ _

/-! ### State-level helper lemmas -/

theorem rebuildState_loaded (fs : FS) (now : Nat) :
    (rebuildState fs now).cache_loaded = true := rfl

theorem rebuildState_all_companies (fs : FS) (now : Nat) :
    (rebuildState fs now).all_companies = fs.companyRows.map stripCompanyRow := by
  have h : (rebuildState fs now).all_companies
      = (fs.companyRows.foldl companyStep ([], [])).2 := rfl
  rw [h, companyFold_list]
  rfl

theorem rebuildState_all_recruits (fs : FS) (now : Nat) :
    (rebuildState fs now).all_recruits
      = (fs.recruitRows.map _normalize_row).filter
          (fun d => truthy (pyGet d "media_internal_id")) := by
  have h : (rebuildState fs now).all_recruits
      = (fs.recruitRows.foldl recruitStep ([], [])).2 := rfl
  rw [h, recruitFold_list]
  rfl

theorem rebuildState_company_key (fs : FS) (now : Nat) (k : String)
    (recd : Record)
    (h : alGet (rebuildState fs now).company_cache k = some recd) :
    pyGet recd "corporate_number" = some k ∧ k ≠ "" := by
  apply companyFold_index_key fs.companyRows ([], []) _ k recd h
  intro k2 r2 h2
  simp [alGet] at h2

theorem rebuildState_recruit_key (fs : FS) (now : Nat) (k : String)
    (recd : Record)
    (h : alGet (rebuildState fs now).recruit_cache k = some recd) :
    pyGet recd "media_internal_id" = some k ∧ k ≠ "" := by
  apply recruitFold_index_key fs.recruitRows ([], []) _ k recd h
  intro k2 r2 h2
  simp [alGet] at h2

theorem rebuildState_company_mem (fs : FS) (now : Nat) (k : String)
    (recd : Record)
    (h : alGet (rebuildState fs now).company_cache k = some recd) :
    ∃ row ∈ fs.companyRows, recd = stripCompanyRow row := by
  rcases companyFold_index_mem fs.companyRows ([], []) k recd h with h1 | h1
  · simp [alGet] at h1
  · exact h1

theorem rebuildState_recruit_mem (fs : FS) (now : Nat) (k : String)
    (recd : Record)
    (h : alGet (rebuildState fs now).recruit_cache k = some recd) :
    ∃ row ∈ fs.recruitRows, recd = _normalize_row row := by
  rcases recruitFold_index_mem fs.recruitRows ([], []) k recd h with h1 | h1
  · simp [alGet] at h1
  · exact h1

theorem ensure_loaded_eq (fs : FS) (now : Nat) (st : CacheState)
    (h : st.cache_loaded = true) :
    ensure_cache_loaded fs now st = Except.ok st := by
  simp [ensure_cache_loaded, h]

theorem get_recruitment_loaded (fs : FS) (now : Nat) (st : CacheState)
    (k : String) (h : st.cache_loaded = true) (recd : Record)
    (halg : alGet st.recruit_cache k = some recd) :
    get_recruitment fs now st k
      = (st, Except.ok (some (recd, joinCompany st recd))) := by
  simp [get_recruitment, ensure_cache_loaded, h, halg]

/-! ### Reconstruction: normalizing an already-normalized record -/

theorem foldl_normStep_keys_nodup :
    ∀ (row : RawRow) (acc : Record), (alKeys acc).Nodup →
      (alKeys (row.foldl normStep acc)).Nodup := by
  intro row
  induction row with
  | nil => intro acc h; simpa using h
  | cons hd tl ih =>
      intro acc h
      rw [List.foldl_cons]
      apply ih
      cases hk : hd.1 with
      | none => simpa [normStep, hk] using h
      | some k =>
          simp only [normStep, hk]
          exact alKeys_nodup_alInsert _ _ _ h

/-- The raw row obtained by feeding an already-built Record back to the
normalizer (in Python both are plain dicts, so this coercion is implicit). -/
def recordToRaw (d : Record) : RawRow := d.map (fun kv => (some kv.1, kv.2))

theorem foldl_normStep_reconstruct :
    ∀ (d acc : Record), (∀ kv ∈ d, normKV kv) → (alKeys d).Nodup →
      (∀ kv ∈ d, alGet acc kv.1 = none) →
      (recordToRaw d).foldl normStep acc = acc ++ d := by
  intro d
  induction d with
  | nil => intro acc _ _ _; simp [recordToRaw]
  | cons kv rest ih =>
      intro acc hforall hnodup hdisj
      obtain ⟨k, v⟩ := kv
      have hkv : normKV (k, v) := hforall _ (List.mem_cons_self _ _)
      have hnd : k ∉ alKeys rest ∧ (alKeys rest).Nodup := by
        have : alKeys ((k, v) :: rest) = k :: alKeys rest := rfl
        rw [this] at hnodup
        exact List.nodup_cons.1 hnodup
      rw [show recordToRaw ((k, v) :: rest)
          = (some k, v) :: recordToRaw rest from rfl]
      rw [List.foldl_cons]
      have hstep : normStep acc (some k, v) = acc ++ [(k, v)] := by
        simp only [normStep]
        have hk : pyStrip k = k := hkv.1
        have hv : normValue v = v := by
          cases v with
          | none => rfl
          | some s =>
              have hs := hkv.2 s rfl
              simp [normValue, hs.2, hs.1]
        rw [hk, hv]
        exact alInsert_of_alGet_none acc k v (hdisj _ (List.mem_cons_self _ _))
      rw [hstep]
      rw [ih (acc ++ [(k, v)])
          (fun x hx => hforall x (List.mem_cons_of_mem _ hx)) hnd.2 ?_]
      · rw [List.append_assoc]
        rfl
      · intro kv2 hkv2
        rw [alGet_append_of_none acc _ _
            (hdisj _ (List.mem_cons_of_mem _ hkv2))]
        have hne : k ≠ kv2.1 := by
          intro he
          apply hnd.1
          rw [he]
          exact List.mem_map_of_mem Prod.fst hkv2
        simp [alGet, hne]

/-! ### Concrete fixtures used by witnesses and counterexamples -/

/-- A filesystem whose company file holds one row (name Old), mtimes 1-1. -/
def fsOld : FS :=
  { companyExists := true, recruitExists := true, companyMtime := 1,
    recruitMtime := 1,
    companyRows :=
      [[(some "corporate_number", some "1"), (some "name", some "Old")]],
    recruitRows := [] }

/-- The same filesystem after the company file was rewritten (name New,
mtime 2): the version token changes from 1-1 to 2-1. -/
def fsNew : FS :=
  { companyExists := true, recruitExists := true, companyMtime := 2,
    recruitMtime := 1,
    companyRows :=
      [[(some "corporate_number", some "1"), (some "name", some "New")]],
    recruitRows := [] }

/-- A snapshot loaded from fsOld; against fsNew its version token is stale. -/
def staleState : CacheState := rebuildState fsOld 10

/-- A filesystem whose company file is missing. -/
def fsNoCompany : FS :=
  { companyExists := false, recruitExists := true, companyMtime := 0,
    recruitMtime := 1, companyRows := [], recruitRows := [] }

/-- A filesystem with one company and three recruit rows: a keyed row, a row
whose media_internal_id is blank, and a later duplicate of the first key. -/
def fsRec : FS :=
  { companyExists := true, recruitExists := true, companyMtime := 3,
    recruitMtime := 4,
    companyRows :=
      [[(some "corporate_number", some "9"), (some "name", some "Acme")]],
    recruitRows :=
      [[(some "media_internal_id", some "m1"),
        (some "corporate_number", some "9")],
       [(some "media_internal_id", some "  ")],
       [(some "media_internal_id", some "m1"), (some "title", some "Dup")]] }

/-- A filesystem with two company rows sharing one corporate_number. -/
def fsDup : FS :=
  { companyExists := true, recruitExists := true, companyMtime := 7,
    recruitMtime := 8,
    companyRows :=
      [[(some "corporate_number", some "5"), (some "name", some "A")],
       [(some "corporate_number", some "5"), (some "name", some "B")]],
    recruitRows := [] }

/-- A filesystem with one company row lacking corporate_number. -/
def fsNoKey : FS :=
  { companyExists := true, recruitExists := true, companyMtime := 0,
    recruitMtime := 0,
    companyRows := [[(some "name", some "Ghost")]], recruitRows := [] }

/-! ### Claim C1 -/

/-- C1 is refuted: with a loaded but stale snapshot (the computed version
token of the filesystem differs from the cached token), get_company answers
from the stale snapshot and performs no reload -- the state is returned
unchanged and the answer is the old record, although a rebuild against the
current filesystem would give different data. -/
theorem stale_cache_answered_without_reload :
    staleState.cache_loaded = true ∧
    _file_version fsNew ≠ staleState.cache_version ∧
    get_company fsNew 99 staleState "1"
      = (staleState,
         Except.ok (some [("corporate_number", some "1"),
                          ("name", some "Old")])) ∧
    alGet (rebuildState fsNew 99).company_cache "1"
      = some [("corporate_number", some "1"), ("name", some "New")] :=
  ⟨rfl, by decide, rfl, by decide⟩

/-- C1 (amended): each inbound query checks only the loaded flag.  When a
snapshot is loaded the query is answered directly from the in-memory snapshot
-- even when the version token is stale -- with no reload and no state change;
only when no snapshot exists does the handler perform a full non-forced load
(whose own staleness check then runs) before answering. -/
theorem query_checks_loaded_flag_only (fs : FS) (now : Nat) (st : CacheState)
    (k : String) :
    (st.cache_loaded = true →
      get_company fs now st k = (st, Except.ok (alGet st.company_cache k)) ∧
      (alGet st.recruit_cache k = none →
        get_recruitment fs now st k = (st, Except.ok none)) ∧
      (∀ recd, alGet st.recruit_cache k = some recd →
        get_recruitment fs now st k
          = (st, Except.ok (some (recd, joinCompany st recd)))) ∧
      get_all_recruitments fs now st = (st, Except.ok st.all_recruits) ∧
      root fs now st = (st, Except.ok st.all_companies) ∧
      check_data fs now st = (st, Except.ok
        { company_count := st.company_cache.length,
          recruit_count := st.recruit_cache.length,
          cache_loaded := st.cache_loaded,
          cache_version := st.cache_version,
          cache_loaded_at := st.cache_loaded_at,
          source := "csv" })) ∧
    (st.cache_loaded = false →
      ensure_cache_loaded fs now st = load_cache_from_csv fs false st now ∧
      (fs.companyExists = true → fs.recruitExists = true →
        ensure_cache_loaded fs now st = Except.ok (rebuildState fs now))) := by
  constructor
  · intro h
    refine ⟨?_, ?_, ?_, ?_, ?_, ?_⟩
    · simp [get_company, ensure_cache_loaded, h]
    · intro hn
      simp [get_recruitment, ensure_cache_loaded, h, hn]
    · intro recd hr
      exact get_recruitment_loaded fs now st k h recd hr
    · simp [get_all_recruitments, ensure_cache_loaded, h]
    · simp [root, ensure_cache_loaded, h]
    · simp [check_data, ensure_cache_loaded, h]
  · intro h
    constructor
    · simp [ensure_cache_loaded, h]
    · intro hc hr
      simp [ensure_cache_loaded, h, load_cache_from_csv, hc, hr]

theorem query_checks_loaded_flag_only_witness :
    get_company fsNew 99 staleState "7"
      = (staleState, Except.ok (alGet staleState.company_cache "7")) :=
  ((query_checks_loaded_flag_only fsNew 99 staleState "7").1 rfl).1

/-! ### Claim C2 -/

/-- C2: a missing source file makes the load fail with an error naming the
missing path; the reload endpoint then returns the error with the previously
published snapshot state untouched, and that snapshot remains queryable. -/
theorem missing_source_fails_preserving_snapshot (fs : FS) (st : CacheState)
    (now : Nat) (force : Bool) :
    (fs.companyExists = false →
      load_cache_from_csv fs force st now
        = Except.error ("Missing " ++ COMPANY_CSV) ∧
      reload_cache fs now st
        = (st, Except.error ("Missing " ++ COMPANY_CSV))) ∧
    (fs.companyExists = true → fs.recruitExists = false →
      load_cache_from_csv fs force st now
        = Except.error ("Missing " ++ RECRUIT_CSV) ∧
      reload_cache fs now st
        = (st, Except.error ("Missing " ++ RECRUIT_CSV))) ∧
    (st.cache_loaded = true → ∀ k,
      get_company fs now st k = (st, Except.ok (alGet st.company_cache k))) := by
  refine ⟨?_, ?_, ?_⟩
  · intro h
    constructor
    · simp [load_cache_from_csv, h]
    · simp [reload_cache, load_cache_from_csv, h]
  · intro hc hr
    constructor
    · simp [load_cache_from_csv, hc, hr]
    · simp [reload_cache, load_cache_from_csv, hc, hr]
  · intro h k
    simp [get_company, ensure_cache_loaded, h]

theorem missing_source_fails_preserving_snapshot_witness :
    load_cache_from_csv fsNoCompany true staleState 5
      = Except.error ("Missing " ++ COMPANY_CSV) :=
  ((missing_source_fails_preserving_snapshot fsNoCompany staleState 5 true).1
    rfl).1

/-! ### Claim C3 -/

/-- C3: with both source files present, a non-forced reload on a loaded
snapshot with an unchanged version token returns the state unchanged (same
indexes, same load timestamp), while a forced reload always performs the full
rebuild regardless of the token. -/
theorem reload_noop_and_force_rebuild (fs : FS) (st : CacheState) (now : Nat)
    (hc : fs.companyExists = true) (hr : fs.recruitExists = true) :
    (st.cache_loaded = true → _file_version fs = st.cache_version →
      load_cache_from_csv fs false st now = Except.ok st) ∧
    load_cache_from_csv fs true st now = Except.ok (rebuildState fs now) := by
  constructor
  · intro hl hv
    simp [load_cache_from_csv, hc, hr, hl, hv]
  · simp [load_cache_from_csv, hc, hr]

theorem reload_noop_and_force_rebuild_witness :
    load_cache_from_csv fsOld false staleState 99 = Except.ok staleState :=
  (reload_noop_and_force_rebuild fsOld staleState 99 rfl rfl).1 rfl rfl

/-! ### Claim C4 -/

/-- C4: after a load, a recruit row with a truthy (non-empty after
normalization) media_internal_id is present in the ListRecruitments output and
its key is indexed, so get_recruitment serves a non-null result for that key;
a row whose media_internal_id is absent or empty after trimming is retained
nowhere -- in neither the ordered list nor the index. -/
theorem recruit_row_kept_iff_keyed (fs : FS) (now : Nat) (r : RawRow)
    (hmem : r ∈ fs.recruitRows) :
    (truthy (pyGet (_normalize_row r) "media_internal_id") = true →
      _normalize_row r ∈ (rebuildState fs now).all_recruits ∧
      ∃ k res, pyGet (_normalize_row r) "media_internal_id" = some k ∧
        get_recruitment fs now (rebuildState fs now) k
          = (rebuildState fs now, Except.ok (some res))) ∧
    (truthy (pyGet (_normalize_row r) "media_internal_id") = false →
      _normalize_row r ∉ (rebuildState fs now).all_recruits ∧
      ∀ k, alGet (rebuildState fs now).recruit_cache k
        ≠ some (_normalize_row r)) := by
  constructor
  · intro ht
    cases hc : pyGet (_normalize_row r) "media_internal_id" with
    | none =>
        rw [hc] at ht
        simp [truthy] at ht
    | some k =>
        rw [hc] at ht
        have hkne : k ≠ "" := by simpa [truthy] using ht
        constructor
        · rw [rebuildState_all_recruits]
          apply List.mem_filter.2
          refine ⟨List.mem_map_of_mem _ hmem, ?_⟩
          rw [hc]
          simpa [truthy] using hkne
        · have hsome : (alGet (rebuildState fs now).recruit_cache k).isSome
              = true :=
            recruitFold_isSome_of_mem fs.recruitRows ([], []) r k hmem hc hkne
          cases halg : alGet (rebuildState fs now).recruit_cache k with
          | none =>
              rw [halg] at hsome
              simp at hsome
          | some recd =>
              exact ⟨k, (recd, joinCompany (rebuildState fs now) recd), rfl,
                get_recruitment_loaded fs now _ k (rebuildState_loaded fs now)
                  recd halg⟩
  · intro ht
    have hcnone : pyGet (_normalize_row r) "media_internal_id" = none := by
      cases hc : pyGet (_normalize_row r) "media_internal_id" with
      | none => rfl
      | some k =>
          rw [hc] at ht
          simp [truthy] at ht
          subst ht
          exact absurd hc (normalize_row_pyGet_ne_empty r _)
    constructor
    · intro hin
      rw [rebuildState_all_recruits] at hin
      have hcond := List.of_mem_filter hin
      rw [hcnone] at hcond
      simp [truthy] at hcond
    · intro k hk
      have h2 := (rebuildState_recruit_key fs now k _ hk).1
      rw [hcnone] at h2
      exact Option.noConfusion h2

theorem recruit_row_kept_iff_keyed_witness :
    _normalize_row [(some "media_internal_id", some "  ")]
      ∉ (rebuildState fsRec 0).all_recruits :=
  ((recruit_row_kept_iff_keyed fsRec 0
      [(some "media_internal_id", some "  ")] (by decide)).2 (by decide)).1

/-! ### Claim C5 -/

/-- C5: get_company on the key of a valid company row (non-empty
corporate_number after normalization, with no later row carrying the same key,
matching the data model where corporate_number is the unique key) returns
exactly the normalized row with quality and updated_at removed; on any key
absent from the company index it returns the 404 marker. -/
theorem get_company_serves_normalized_row (fs : FS) (now : Nat)
    (xs ys : List RawRow) (r : RawRow) (k : String)
    (hrows : fs.companyRows = xs ++ r :: ys)
    (hkey : pyGet (stripCompanyRow r) "corporate_number" = some k)
    (hne : k ≠ "")
    (hlast : ∀ r2 ∈ ys,
      pyGet (stripCompanyRow r2) "corporate_number" ≠ some k) :
    get_company fs now (rebuildState fs now) k
      = (rebuildState fs now, Except.ok (some (stripCompanyRow r))) ∧
    ∀ k2, alGet (rebuildState fs now).company_cache k2 = none →
      get_company fs now (rebuildState fs now) k2
        = (rebuildState fs now, Except.ok none) := by
  constructor
  · have h := company_cache_lastdup fs now xs ys r k hrows hkey hne hlast
    simp [get_company, ensure_cache_loaded, rebuildState_loaded, h]
  · intro k2 h2
    simp [get_company, ensure_cache_loaded, rebuildState_loaded, h2]

theorem get_company_serves_normalized_row_witness :
    get_company fsOld 10 staleState "1"
      = (staleState, Except.ok (some (stripCompanyRow
          [(some "corporate_number", some "1"), (some "name", some "Old")]))) :=
  (get_company_serves_normalized_row fsOld 10 [] []
    [(some "corporate_number", some "1"), (some "name", some "Old")] "1"
    rfl (by decide) (by decide) (by intro r2 h2; simp at h2)).1

/-! ### Claim C6 -/

/-- C6: get_recruitment on any key present in the recruit index returns that
record non-null, and the joined company is non-null exactly when the
corporate_number field of the record is non-null and resolves to an entry of
the company index. -/
theorem get_recruitment_join_semantics (fs : FS) (now : Nat) (k : String)
    (recd : Record)
    (h : alGet (rebuildState fs now).recruit_cache k = some recd) :
    get_recruitment fs now (rebuildState fs now) k
      = (rebuildState fs now,
         Except.ok (some (recd, joinCompany (rebuildState fs now) recd))) ∧
    ((joinCompany (rebuildState fs now) recd).isSome = true ↔
      ∃ c, pyGet recd "corporate_number" = some c ∧
        (alGet (rebuildState fs now).company_cache c).isSome = true) := by
  constructor
  · exact get_recruitment_loaded fs now _ k (rebuildState_loaded fs now) recd h
  · obtain ⟨row, hrow, heq⟩ := rebuildState_recruit_mem fs now k recd h
    subst heq
    cases hc : pyGet (_normalize_row row) "corporate_number" with
    | none => simp [joinCompany, hc]
    | some c =>
        have hcne : c ≠ "" := by
          intro he
          rw [he] at hc
          exact normalize_row_pyGet_ne_empty row _ hc
        simp [joinCompany, hc, hcne]

theorem get_recruitment_join_semantics_witness :
    get_recruitment fsRec 0 (rebuildState fsRec 0) "m1"
      = (rebuildState fsRec 0, Except.ok (some
          (_normalize_row [(some "media_internal_id", some "m1"),
                           (some "title", some "Dup")],
           joinCompany (rebuildState fsRec 0)
             (_normalize_row [(some "media_internal_id", some "m1"),
                              (some "title", some "Dup")])))) :=
  (get_recruitment_join_semantics fsRec 0 "m1"
      (_normalize_row [(some "media_internal_id", some "m1"),
                       (some "title", some "Dup")]) (by decide)).1

/-! ### Claim C7 -/

/-- C7: normalization trims keys, trims values, maps every empty-after-trim
value to an explicit null, and no record served from a built snapshot (either
ordered list, hence also any indexed record) contains an empty-string value. -/
theorem normalization_invariant :
    (∀ s, pyStrip s = "" → normValue (some s) = none) ∧
    (∀ row kv, kv ∈ _normalize_row row →
      pyStrip kv.1 = kv.1 ∧ ∀ s, kv.2 = some s → s ≠ "" ∧ pyStrip s = s) ∧
    (∀ fs now recd, (recd ∈ (rebuildState fs now).all_companies ∨
        recd ∈ (rebuildState fs now).all_recruits) →
      ∀ kv, kv ∈ recd → kv.2 ≠ some "") := by
  refine ⟨?_, ?_, ?_⟩
  · intro s h
    exact normValue_none_of_empty s h
  · intro row kv h
    exact normalize_row_forall row kv h
  · intro fs now recd hmem kv hkv hcontra
    have hnorm : normKV kv := by
      rcases hmem with hm | hm
      · rw [rebuildState_all_companies] at hm
        obtain ⟨row, hrow, heq⟩ := List.mem_map.1 hm
        rw [← heq] at hkv
        exact stripCompanyRow_forall row kv hkv
      · rw [rebuildState_all_recruits] at hm
        obtain ⟨row, hrow, heq⟩ := List.mem_map.1 (List.mem_of_mem_filter hm)
        rw [← heq] at hkv
        exact normalize_row_forall row kv hkv
    exact (hnorm.2 "" hcontra).1 rfl

theorem normalization_invariant_witness : normValue (some "   ") = none :=
  normalization_invariant.1 "   " (by decide)

/-! ### Claim C8 -/

/-- C8: every record stored in the company index carries a non-empty
corporate_number, and a company row without a usable key after normalization
is still retained in the ordered list served by ListCompanies but appears
nowhere in the index. -/
theorem company_index_wellformed (fs : FS) (now : Nat) :
    (∀ k recd, alGet (rebuildState fs now).company_cache k = some recd →
      ∃ c, pyGet recd "corporate_number" = some c ∧ c ≠ "") ∧
    (∀ r ∈ fs.companyRows,
      truthy (pyGet (stripCompanyRow r) "corporate_number") = false →
      stripCompanyRow r ∈ (rebuildState fs now).all_companies ∧
      ∀ k recd, alGet (rebuildState fs now).company_cache k = some recd →
        recd ≠ stripCompanyRow r) := by
  constructor
  · intro k recd h
    obtain ⟨h1, h2⟩ := rebuildState_company_key fs now k recd h
    exact ⟨k, h1, h2⟩
  · intro r hr htr
    constructor
    · rw [rebuildState_all_companies]
      exact List.mem_map_of_mem _ hr
    · intro k recd h heq
      have h2 := rebuildState_company_key fs now k recd h
      rw [heq] at h2
      rw [h2.1] at htr
      simp [truthy] at htr
      exact h2.2 htr

theorem company_index_wellformed_witness :
    stripCompanyRow [(some "name", some "Ghost")]
      ∈ (rebuildState fsNoKey 0).all_companies :=
  ((company_index_wellformed fsNoKey 0).2
      [(some "name", some "Ghost")] (by decide) (by decide)).1

/-! ### Claim C9 -/

/-- C9: under duplicate keys each index maps the key to the last row with that
key in source order, the ordered company list retains every row and the
ordered recruit list retains every keyed row, and on a concrete duplicate
input the index is strictly smaller than the list. -/
theorem duplicate_keys_last_wins (fs : FS) (now : Nat) :
    ((rebuildState fs now).all_companies
      = fs.companyRows.map stripCompanyRow) ∧
    ((rebuildState fs now).all_recruits
      = (fs.recruitRows.map _normalize_row).filter
          (fun d => truthy (pyGet d "media_internal_id"))) ∧
    (∀ xs ys r k, fs.companyRows = xs ++ r :: ys →
      pyGet (stripCompanyRow r) "corporate_number" = some k → k ≠ "" →
      (∀ r2 ∈ ys, pyGet (stripCompanyRow r2) "corporate_number" ≠ some k) →
      alGet (rebuildState fs now).company_cache k
        = some (stripCompanyRow r)) ∧
    (∀ xs ys r k, fs.recruitRows = xs ++ r :: ys →
      pyGet (_normalize_row r) "media_internal_id" = some k → k ≠ "" →
      (∀ r2 ∈ ys, pyGet (_normalize_row r2) "media_internal_id" ≠ some k) →
      alGet (rebuildState fs now).recruit_cache k
        = some (_normalize_row r)) ∧
    ((rebuildState fsDup 0).company_cache.length
      < (rebuildState fsDup 0).all_companies.length) := by
  refine ⟨rebuildState_all_companies fs now, rebuildState_all_recruits fs now,
    ?_, ?_, ?_⟩
  · intro xs ys r k h1 h2 h3 h4
    exact company_cache_lastdup fs now xs ys r k h1 h2 h3 h4
  · intro xs ys r k h1 h2 h3 h4
    exact recruit_cache_lastdup fs now xs ys r k h1 h2 h3 h4
  · decide

theorem duplicate_keys_last_wins_witness :
    alGet (rebuildState fsDup 0).company_cache "5"
      = some (stripCompanyRow
          [(some "corporate_number", some "5"), (some "name", some "B")]) :=
  (duplicate_keys_last_wins fsDup 0).2.2.1
    [[(some "corporate_number", some "5"), (some "name", some "A")]] []
    [(some "corporate_number", some "5"), (some "name", some "B")] "5"
    rfl (by decide) (by decide) (by intro r2 h2; simp at h2)

/-! ### Claim C10 -/

/-- C10: normalization is idempotent -- feeding an already-normalized record
back through the normalizer returns it unchanged. -/
theorem normalize_idempotent (row : RawRow) :
    _normalize_row (recordToRaw (_normalize_row row)) = _normalize_row row := by
  have h := foldl_normStep_reconstruct (_normalize_row row) []
    (normalize_row_forall row)
    (foldl_normStep_keys_nodup row [] (by simp [alKeys]))
    (by intro kv _; simp [alGet])
  simpa [_normalize_row] using h
